import Mathlib

/-!
Verification of the QuantCoin node core (`block.py`, `node.py`) against its
natural-language specification.  The Python sources are shallowly embedded:
byte strings become `List Nat` (each entry a byte), Python integers become
`Nat`/`Int` with explicit wrap-around where the source relies on it, and the
cryptographic primitives used by the source (`hashlib.sha256`,
`hashlib.sha1`, `binascii.b2a_base64`, and ECDSA verification over
secp256k1) are implemented executably so that every claim can be evaluated
on concrete inputs inside the kernel.
-/

set_option maxRecDepth 100000

namespace QuantCoin

/-- A byte string: a list of byte values (each `< 256` for well-formed data). -/
abbrev Bytes := List Nat

/-- The UTF-8 bytes of a string (all strings in this development are ASCII,
so this is the code-point list). Mirrors Python `s.encode('utf-8')`. -/
def ascii (s : String) : Bytes := s.data.map Char.toNat

/-- Truncate to a 32-bit word, mirroring fixed-width overflow. -/
def w32 (x : Nat) : Nat := x % 4294967296

/-- Right rotation of a 32-bit word. -/
def rotr32 (n x : Nat) : Nat := w32 ((x >>> n) ||| (x <<< (32 - n)))

/-- Left rotation of a 32-bit word. -/
def rotl32 (n x : Nat) : Nat := w32 ((x <<< n) ||| (x >>> (32 - n)))

/-- Bitwise complement of a 32-bit word. -/
def not32 (x : Nat) : Nat := x ^^^ 4294967295

/-- Big-endian byte serialization of `x` into `n` bytes. -/
def beBytes : Nat → Nat → Bytes
  | 0, _ => []
  | n + 1, x => beBytes n (x >>> 8) ++ [x % 256]

/-- Big-endian interpretation of a byte string as a natural number. -/
def beNat (l : Bytes) : Nat := l.foldl (fun acc b => acc * 256 + b) 0

/-- SHA-2 / SHA-1 message padding (FIPS 180-4 §5.1.1): append `0x80`, zero
bytes to 56 mod 64, then the 64-bit big-endian bit length. -/
def padMsg (m : Bytes) : Bytes :=
  m ++ [128] ++ List.replicate ((119 - m.length % 64) % 64) 0
    ++ beBytes 8 (m.length * 8)

/-- Group a byte string into big-endian 32-bit words (dropping a ragged tail;
padded messages have none). -/
def toWords : Bytes → List Nat
  | b0 :: b1 :: b2 :: b3 :: rest =>
      (((b0 * 256 + b1) * 256 + b2) * 256 + b3) :: toWords rest
  | _ => []

/-- `Ch(x,y,z)` of FIPS 180-4. -/
def ch32 (x y z : Nat) : Nat := (x &&& y) ^^^ (not32 x &&& z)

/-- `Maj(x,y,z)` of FIPS 180-4. -/
def maj32 (x y z : Nat) : Nat := (x &&& y) ^^^ (x &&& z) ^^^ (y &&& z)

/-- `Σ₀`. -/
def bsig0 (x : Nat) : Nat := rotr32 2 x ^^^ rotr32 13 x ^^^ rotr32 22 x

/-- `Σ₁`. -/
def bsig1 (x : Nat) : Nat := rotr32 6 x ^^^ rotr32 11 x ^^^ rotr32 25 x

/-- `σ₀`. -/
def ssig0 (x : Nat) : Nat := rotr32 7 x ^^^ rotr32 18 x ^^^ (x >>> 3)

/-- `σ₁`. -/
def ssig1 (x : Nat) : Nat := rotr32 17 x ^^^ rotr32 19 x ^^^ (x >>> 10)

/-- The 64 SHA-256 round constants of FIPS 180-4 (decimal). -/
def sha256K : List Nat :=
  [1116352408, 1899447441, 3049323471, 3921009573, 961987163,
   1508970993, 2453635748, 2870763221, 3624381080, 310598401,
   607225278, 1426881987, 1925078388, 2162078206, 2614888103,
   3248222580, 3835390401, 4022224774, 264347078, 604807628,
   770255983, 1249150122, 1555081692, 1996064986, 2554220882,
   2821834349, 2952996808, 3210313671, 3336571891, 3584528711,
   113926993, 338241895, 666307205, 773529912, 1294757372,
   1396182291, 1695183700, 1986661051, 2177026350, 2456956037,
   2730485921, 2820302411, 3259730800, 3345764771, 3516065817,
   3600352804, 4094571909, 275423344, 430227734, 506948616,
   659060556, 883997877, 958139571, 1322822218, 1537002063,
   1747873779, 1955562222, 2024104815, 2227730452, 2361852424,
   2428436474, 2756734187, 3204031479, 3329325298]

/-- One SHA-256 message-schedule extension step on the reversed word list:
`rev.head` is the most recent word `w[t-1]`. -/
def schedStep (rev : List Nat) : List Nat :=
  w32 (ssig1 (rev.getD 1 0) + rev.getD 6 0 + ssig0 (rev.getD 14 0)
       + rev.getD 15 0) :: rev

/-- Iterate the schedule extension. -/
def schedRun : Nat → List Nat → List Nat
  | 0, rev => rev
  | n + 1, rev => schedRun n (schedStep rev)

/-- Eight-word SHA-256 working state. -/
structure Hs8 where
  a : Nat
  b : Nat
  c : Nat
  d : Nat
  e : Nat
  f : Nat
  g : Nat
  h : Nat

/-- One SHA-256 compression round; `kw` is the pre-added `K[t] + W[t]`. -/
def round256 (s : Hs8) (kw : Nat) : Hs8 :=
  let t1 := w32 (s.h + bsig1 s.e + ch32 s.e s.f s.g + kw)
  let t2 := w32 (bsig0 s.a + maj32 s.a s.b s.c)
  ⟨w32 (t1 + t2), s.a, s.b, s.c, w32 (s.d + t1), s.e, s.f, s.g⟩

/-- Run the 64 compression rounds. -/
def rounds256 : List Nat → Hs8 → Hs8
  | [], s => s
  | kw :: rest, s => rounds256 rest (round256 s kw)

/-- Compress one 16-word block into the chaining state. -/
def compress256 (st : Hs8) (blk : List Nat) : Hs8 :=
  let ws := (schedRun 48 blk.reverse).reverse
  let s := rounds256 (List.zipWith (fun x y => x + y) sha256K ws) st
  ⟨w32 (st.a + s.a), w32 (st.b + s.b), w32 (st.c + s.c), w32 (st.d + s.d),
   w32 (st.e + s.e), w32 (st.f + s.f), w32 (st.g + s.g), w32 (st.h + s.h)⟩

/-- Fold the compression function over consecutive 16-word blocks. -/
def process256 : List Nat → Hs8 → Hs8
  | w0 :: w1 :: w2 :: w3 :: w4 :: w5 :: w6 :: w7 :: w8 :: w9 :: w10 :: w11 ::
      w12 :: w13 :: w14 :: w15 :: rest, st =>
      process256 rest (compress256 st
        [w0, w1, w2, w3, w4, w5, w6, w7, w8, w9, w10, w11, w12, w13, w14, w15])
  | _, st => st

/-- SHA-256 of a byte string, mirroring Python `hashlib.sha256(m).digest()`. -/
def sha256 (m : Bytes) : Bytes :=
  let st := process256 (toWords (padMsg m))
    ⟨1779033703, 3144134277, 1013904242, 2773480762,
     1359893119, 2600822924, 528734635, 1541459225⟩
  beBytes 4 st.a ++ beBytes 4 st.b ++ beBytes 4 st.c ++ beBytes 4 st.d ++
  beBytes 4 st.e ++ beBytes 4 st.f ++ beBytes 4 st.g ++ beBytes 4 st.h

/-- SHA-1 round function, selected by the round index `t`. -/
def sha1F (t b c d : Nat) : Nat :=
  if t < 20 then (b &&& c) ||| (not32 b &&& d)
  else if t < 40 then b ^^^ c ^^^ d
  else if t < 60 then (b &&& c) ||| (b &&& d) ||| (c &&& d)
  else b ^^^ c ^^^ d

/-- SHA-1 round constant, selected by the round index `t`. -/
def sha1KC (t : Nat) : Nat :=
  if t < 20 then 1518500249
  else if t < 40 then 1859775393
  else if t < 60 then 2400959708
  else 3395469782

/-- One SHA-1 message-schedule extension step on the reversed word list. -/
def sha1SchedStep (rev : List Nat) : List Nat :=
  rotl32 1 (rev.getD 2 0 ^^^ rev.getD 7 0 ^^^ rev.getD 13 0 ^^^ rev.getD 15 0)
    :: rev

/-- Iterate the SHA-1 schedule extension. -/
def sha1SchedRun : Nat → List Nat → List Nat
  | 0, rev => rev
  | n + 1, rev => sha1SchedRun n (sha1SchedStep rev)

/-- Five-word SHA-1 working state. -/
structure Hs5 where
  a : Nat
  b : Nat
  c : Nat
  d : Nat
  e : Nat

/-- Run the 80 SHA-1 rounds; `t` is the current round index. -/
def sha1Rounds : Nat → List Nat → Hs5 → Hs5
  | _, [], s => s
  | t, wv :: rest, s =>
      sha1Rounds (t + 1) rest
        ⟨w32 (rotl32 5 s.a + sha1F t s.b s.c s.d + s.e + sha1KC t + wv),
         s.a, rotl32 30 s.b, s.c, s.d⟩

/-- Compress one 16-word block into the SHA-1 chaining state. -/
def compress1 (st : Hs5) (blk : List Nat) : Hs5 :=
  let ws := (sha1SchedRun 64 blk.reverse).reverse
  let s := sha1Rounds 0 ws st
  ⟨w32 (st.a + s.a), w32 (st.b + s.b), w32 (st.c + s.c), w32 (st.d + s.d),
   w32 (st.e + s.e)⟩

/-- Fold the SHA-1 compression over consecutive 16-word blocks. -/
def process1 : List Nat → Hs5 → Hs5
  | w0 :: w1 :: w2 :: w3 :: w4 :: w5 :: w6 :: w7 :: w8 :: w9 :: w10 :: w11 ::
      w12 :: w13 :: w14 :: w15 :: rest, st =>
      process1 rest (compress1 st
        [w0, w1, w2, w3, w4, w5, w6, w7, w8, w9, w10, w11, w12, w13, w14, w15])
  | _, st => st

/-- SHA-1 of a byte string, mirroring Python `hashlib.sha1(m).digest()`. -/
def sha1 (m : Bytes) : Bytes :=
  let st := process1 (toWords (padMsg m))
    ⟨1732584193, 4023233417, 2562383102, 271733878, 3285377520⟩
  beBytes 4 st.a ++ beBytes 4 st.b ++ beBytes 4 st.c ++ beBytes 4 st.d ++
  beBytes 4 st.e

/-- The base64 alphabet as byte values. -/
def b64Alphabet : Bytes :=
  ascii "ABCDEFGHIJKLMNOPQRSTUVWXYZabcdefghijklmnopqrstuvwxyz0123456789+/"

/-- The base64 character (byte value) for a 6-bit group. -/
def b64Char (n : Nat) : Nat := b64Alphabet.getD n 0

/-- Standard base64 encoding with `=` padding (byte 61), no line breaks. -/
def b64Encode : Bytes → Bytes
  | x :: y :: z :: rest =>
      let n := x * 65536 + y * 256 + z
      b64Char (n >>> 18) :: b64Char ((n >>> 12) % 64) ::
        b64Char ((n >>> 6) % 64) :: b64Char (n % 64) :: b64Encode rest
  | [x, y] =>
      let n := x * 65536 + y * 256
      [b64Char (n >>> 18), b64Char ((n >>> 12) % 64), b64Char ((n >>> 6) % 64), 61]
  | [x] =>
      let n := x * 65536
      [b64Char (n >>> 18), b64Char ((n >>> 12) % 64), 61, 61]
  | [] => []

/-- Mirrors Python `binascii.b2a_base64(b)`: base64 plus a trailing newline. -/
def b2aBase64 (b : Bytes) : Bytes := b64Encode b ++ [10]

/-- Lowercase hex character (byte value) of a value `< 16`. -/
def hexChar (n : Nat) : Nat := if n < 10 then 48 + n else 87 + n

/-- Lowercase hex rendering of a byte string, mirroring Python `.hexdigest()`. -/
def hexBytes : Bytes → Bytes
  | [] => []
  | b :: rest => hexChar (b >>> 4) :: hexChar (b % 16) :: hexBytes rest

/-- Decimal digits of `n` (with explicit fuel for structural recursion). -/
def decDigits : Nat → Nat → Bytes
  | 0, _ => []
  | fuel + 1, n => if n < 10 then [48 + n] else decDigits fuel (n / 10) ++ [48 + n % 10]

/-- The ASCII decimal rendering of a natural number, mirroring Python `str(n)`
for non-negative integers. -/
def decStr (n : Nat) : Bytes := decDigits (n + 1) n

/-! ### secp256k1 ECDSA verification

`node.py` verifies transaction signatures with
`VerifyingKey.from_string(a2b_base64(pk), curve=SECP256k1)` and
`public_key.verify(signature, message, hashfunc=hashlib.sha256)` from the
`ecdsa` package: the public key is the 64-byte big-endian `x ‖ y` pair, the
signature the 64-byte big-endian `r ‖ s` pair, and verification is standard
ECDSA over secp256k1 with the SHA-256 digest of the message as `e`.  The
group law is computed here in Jacobian coordinates; this agrees with the
library's affine arithmetic on all curve points. -/

/-- The secp256k1 base field prime. -/
def pP : Nat := 2 ^ 256 - 2 ^ 32 - 977

/-- The secp256k1 group order. -/
def nN : Nat := 0xfffffffffffffffffffffffffffffffebaaedce6af48a03bbfd25e8cd0364141

/-- x-coordinate of the secp256k1 base point. -/
def gX : Nat := 0x79be667ef9dcbbac55a06295ce870b07029bfcdb2dce28d959f2815b16f81798

/-- y-coordinate of the secp256k1 base point. -/
def gY : Nat := 0x483ada7726a3c4655da4fbfc0e1108a8fd17b448a68554199c47d08ffb10d4b8

/-- Modular exponentiation by binary recursion (structural on the fuel;
`fuel ≥ bit length of e` gives the true value).  `cond`/`beq` keep kernel
reduction shallow. -/
def powMod : Nat → Nat → Nat → Nat → Nat
  | 0, _, _, m => 1 % m
  | fuel + 1, b, e, m =>
      cond (e.beq 0) (1 % m)
        (let r := powMod fuel ((b * b) % m) (e / 2) m
         cond ((e % 2).beq 1) ((b % m) * r % m) r)

/-- Modular inverse by Fermat's little theorem (`m` prime). -/
def invMod (x m : Nat) : Nat := powMod 257 x (m - 2) m

/-- Modular subtraction on `Nat`. -/
def subMod (a b m : Nat) : Nat := (a + (m - b % m)) % m

/-- A point in Jacobian coordinates; `z = 0` encodes the point at infinity. -/
structure JPoint where
  x : Nat
  y : Nat
  z : Nat

/-- The point at infinity. -/
def jZero : JPoint := ⟨1, 1, 0⟩

/-- Jacobian point doubling on secp256k1 (curve coefficient `a = 0`). -/
def jDouble (p : JPoint) : JPoint :=
  cond (p.z.beq 0) jZero (cond (p.y.beq 0) jZero (
    let ysq := p.y * p.y % pP
    let s := 4 * p.x * ysq % pP
    let m := 3 * p.x * p.x % pP
    let x3 := subMod (m * m % pP) (2 * s) pP
    ⟨x3, subMod (m * subMod s x3 pP % pP) (8 * (ysq * ysq % pP)) pP,
     2 * p.y * p.z % pP⟩))

/-- Jacobian point addition on secp256k1. -/
def jAdd (p q : JPoint) : JPoint :=
  cond (p.z.beq 0) q (cond (q.z.beq 0) p (
    let z1z1 := p.z * p.z % pP
    let z2z2 := q.z * q.z % pP
    let u1 := p.x * z2z2 % pP
    let u2 := q.x * z1z1 % pP
    let s1 := p.y * (z2z2 * q.z % pP) % pP
    let s2 := q.y * (z1z1 * p.z % pP) % pP
    cond (u1.beq u2) (cond (s1.beq s2) (jDouble p) jZero) (
      let h := subMod u2 u1 pP
      let hh := h * h % pP
      let hhh := h * hh % pP
      let r := subMod s2 s1 pP
      let u1hh := u1 * hh % pP
      let x3 := subMod (r * r % pP) (hhh + 2 * u1hh) pP
      ⟨x3, subMod (r * subMod u1hh x3 pP % pP) (s1 * hhh % pP) pP,
       h * (p.z * q.z % pP) % pP⟩)))

/-- Scalar multiplication by binary recursion (structural on the fuel;
`fuel ≥ bit length of k` gives the true value). -/
def jSmul : Nat → Nat → JPoint → JPoint
  | 0, _, _ => jZero
  | fuel + 1, k, p =>
      cond (k.beq 0) jZero
        (let r := jSmul fuel (k / 2) (jDouble p)
         cond ((k % 2).beq 1) (jAdd r p) r)

/-- Convert a Jacobian point to affine coordinates (`none` for infinity). -/
def jAffine (p : JPoint) : Option (Nat × Nat) :=
  cond (p.z.beq 0) none (
    let zi := invMod p.z pP
    let zi2 := zi * zi % pP
    some (p.x * zi2 % pP, p.y * (zi2 * zi % pP) % pP))

/-- Core ECDSA verification over secp256k1: public key `(qx, qy)`, signature
`(r, s)`, message digest `e`, as performed by `ecdsa.VerifyingKey.verify`. -/
def ecdsaVerify (qx qy r s e : Nat) : Bool :=
  if r = 0 ∨ s = 0 ∨ nN ≤ r ∨ nN ≤ s then false
  else
    let w := invMod s nN
    let u1 := e % nN * w % nN
    let u2 := r * w % nN
    match jAffine (jAdd (jSmul 257 u1 ⟨gX, gY, 1⟩) (jSmul 257 u2 ⟨qx, qy, 1⟩)) with
    | none => false
    | some (x, _) => x % nN == r

/-- `public_key.verify(sig, msg, hashfunc=sha256)` on wire-format byte
strings: 64-byte `x ‖ y` key, 64-byte `r ‖ s` signature.  Malformed lengths
raise in the library; the admission flow treats that as a failed check. -/
def ecdsaBytesVerify (pk sig msg : Bytes) : Bool :=
  if pk.length = 64 ∧ sig.length = 64 then
    ecdsaVerify (beNat (pk.take 32)) (beNat (pk.drop 32))
      (beNat (sig.take 32)) (beNat (sig.drop 32)) (beNat (sha256 msg))
  else false

/-! ### Transactions

`transaction.py` is not part of the sources under review, so the
`Transaction` record and its accessors are modelled from the spec. -/

/-- An exact rational amount, held as an integer numerator over a (positive,
for all values the model builds) denominator, without normalization: all
arithmetic is plain integer arithmetic, so every check on amounts can be
evaluated inside the kernel.  `toRat` interprets a value in `ℚ`. -/
structure Amt where
  num : Int
  den : Nat
deriving DecidableEq

/-- Exact addition of amounts (cross multiplication). -/
def Amt.add (a b : Amt) : Amt :=
  ⟨a.num * b.den + b.num * a.den, a.den * b.den⟩

/-- Exact subtraction of amounts (cross multiplication). -/
def Amt.sub (a b : Amt) : Amt :=
  ⟨a.num * b.den - b.num * a.den, a.den * b.den⟩

/-- The `≤` test on amounts (cross multiplication; exact for positive
denominators). -/
def Amt.leB (a b : Amt) : Bool :=
  decide (a.num * (b.den : Int) ≤ b.num * (a.den : Int))

/-- Sum of a list of amounts. -/
def Amt.sumL (l : List Amt) : Amt := l.foldr Amt.add ⟨0, 1⟩

/-- The rational value of an amount. -/
def Amt.toRat (a : Amt) : ℚ := (a.num : ℚ) / (a.den : ℚ)

/-- Modelled from the spec: a `Transaction` (spec §3), whose code
(`transaction.py`) is missing from the sources.  `from_wallet` is an
address or `None` for the coinbase, `to_wallets` an ordered sequence of
`(address, amount, commission)` triples with rational amounts, and
`signature` / `public_key` byte strings (64-byte wire format). -/
structure Transaction where
  from_wallet : Option String
  to_wallets : List (String × Amt × Amt)
  signature : Bytes
  public_key : Bytes
deriving DecidableEq

/-- Modelled from the spec: `amount_spent` is the sum of outgoing amounts
plus commissions (spec §3). -/
def Transaction.amount_spent (t : Transaction) : Amt :=
  Amt.sumL (t.to_wallets.map (fun e => e.2.1.add e.2.2))

/-- A JSON string literal (no escaping: addresses and base64 text contain
no characters needing it). -/
def jsonQuote (s : String) : Bytes := [34] ++ ascii s ++ [34]

/-- Rendering of a rational for the canonical serialization: the integer
itself when the denominator is 1, otherwise `num/den`.  The spec fixes only
that the form is deterministic ("numbers in a fixed decimal form"); no
claim depends on the choice. -/
def ratStr (q : Amt) : Bytes :=
  let numS := (if q.num < 0 then [45] else []) ++ decStr q.num.natAbs
  if q.den = 1 then numS else numS ++ [47] ++ decStr q.den

/-- One `to_wallets` entry as JSON: `["address", amount, commission]`. -/
def entryJson (e : String × Amt × Amt) : Bytes :=
  [91] ++ jsonQuote e.1 ++ ascii ", " ++ ratStr e.2.1 ++ ascii ", " ++
    ratStr e.2.2 ++ [93]

/-- Modelled from the spec: `prepare_for_signature` (spec §3), the
"canonical signing body": the deterministic serialization of
`{from_wallet, to_wallets}` with keys in a fixed order. -/
def prepareForSignature (t : Transaction) : Bytes :=
  ascii "\x7b\"from\": " ++
    (match t.from_wallet with
     | none => ascii "null"
     | some w => jsonQuote w) ++
  ascii ", \"to\": [" ++
    (List.intercalate (ascii ", ") (t.to_wallets.map entryJson)) ++
  ascii "]\x7d"

/-- Modelled from the spec: `Transaction.json()` (spec §6): the canonical
body under `body`, plus base64 `signature` and `public_key` fields. -/
def txJson (t : Transaction) : Bytes :=
  ascii "\x7b\"body\": " ++ prepareForSignature t ++
  ascii ", \"signature\": \"" ++ b64Encode t.signature ++
  ascii "\", \"public_key\": \"" ++ b64Encode t.public_key ++ ascii "\"\x7d"

/-! ### Blocks (`block.py`) -/

/-- The `Block` record of `block.py`: an author address, the transaction
list as constructed, the raw digest of the previous block, and the nonce
and digest fields that are absent until mined. -/
structure Block where
  author : String
  txs : List Transaction
  previous_block : Bytes
  nonce : Option Nat
  digest : Option Bytes
deriving DecidableEq

/-- Lexicographic comparison of byte strings, as Python 2 compares
`str` values. -/
def bytesLt : Bytes → Bytes → Bool
  | [], [] => false
  | [], _ :: _ => true
  | _ :: _, [] => false
  | a :: as, b :: bs =>
      if a < b then true else if b < a then false else bytesLt as bs

/-- Python 2 `None < x` ordering on `from_wallet` values: `None` is smaller
than every string, strings compare lexicographically byte-wise. -/
def pyLtFw : Option String → Option String → Bool
  | none, none => false
  | none, some _ => true
  | some _, none => false
  | some a, some b => bytesLt (ascii a) (ascii b)

/-- The comparison function passed to `sorted` in `Block.transactions`:
`lambda t1, t2: t1.from_wallet() < t2.from_wallet()`.  Under the Python 2
`cmp` protocol its result is read as an integer, so `True` is `1` and
`False` is `0` — it never reports "less than" (never negative). -/
def blockCmp (t1 t2 : Transaction) : Int :=
  cond (pyLtFw t1.from_wallet t2.from_wallet) 1 0

/-- Stable insertion of `x`: `x` goes before the first element strictly
greater per the comparison, i.e. the first `y` with `cmp x y < 0`. -/
def insertCmp (cmp : Transaction → Transaction → Int) (x : Transaction) :
    List Transaction → List Transaction
  | [] => [x]
  | y :: ys =>
      if cmp x y < 0 then x :: y :: ys else y :: insertCmp cmp x ys

/-- Python 2 `sorted(l, cmp)`: a stable comparison sort ordering by
`cmp a b < 0`.  (For the comparison used by `Block.transactions`, which is
never negative, every stable sort — CPython's timsort included — returns
the input order, so the choice of stable sort is immaterial.) -/
def sortedCmp (cmp : Transaction → Transaction → Int)
    (l : List Transaction) : List Transaction :=
  l.foldl (fun acc x => insertCmp cmp x acc) []

/-- `Block.transactions()`: the stored transactions passed through
`sorted` with the two-argument comparison above. -/
def Block.transactions (b : Block) : List Transaction :=
  sortedCmp blockCmp b.txs

/-- `Block.previous()`: `binascii.b2a_base64` of the raw previous digest. -/
def Block.previousB64 (b : Block) : Bytes := b2aBase64 b.previous_block

/-- `Block.digest()`: `binascii.b2a_base64` of the stored digest.  (Python
raises on a block without a digest; blocks read back from the Store always
have one, and no claim evaluates this on a digest-less block.) -/
def Block.digestB64 (b : Block) : Bytes := b2aBase64 (b.digest.getD [])

/-- The queue reduction loop of `transactions_digest`: while more than one
node remains, remove the two front nodes and append the hash of their
concatenation at the back.  Structural on the fuel; each pass shortens the
queue by one, so fuel `≥ length` computes the loop's result. -/
def queueRun : Nat → List Bytes → Bytes
  | 0, q => q.headD []
  | fuel + 1, q =>
      match q with
      | x :: y :: rest => queueRun fuel (rest ++ [sha256 (x ++ y)])
      | [x] => x
      | [] => []

/-- The root computed by `transactions_digest` over a list of leaf hashes:
`SHA-256("")` when there are none; otherwise one empty-string entry is
appended if the count is odd and the queue loop reduces to a single node. -/
def transRoot (leaves : List Bytes) : Bytes :=
  match leaves with
  | [] => sha256 []
  | _ :: _ =>
      let padded := if leaves.length % 2 = 1 then leaves ++ [[]] else leaves
      queueRun padded.length padded

/-- `Block.transactions_digest()`: the queue-reduction root over the
SHA-256 hashes of the ordered transactions' JSON. -/
def Block.transactions_digest (b : Block) : Bytes :=
  transRoot (b.transactions.map (fun t => sha256 (txJson t)))

/-- One pairing pass of the spec's level-by-level tree: consecutive pairs
are concatenated and hashed. -/
def pairHashLevel : List Bytes → List Bytes
  | x :: y :: rest => sha256 (x ++ y) :: pairHashLevel rest
  | _ => []

/-- One level of the spec's tree: append an empty-string leaf if the node
count is odd, then hash consecutive pairs. -/
def specLevelStep (l : List Bytes) : List Bytes :=
  pairHashLevel (if l.length % 2 = 1 then l ++ [[]] else l)

/-- Iterate spec levels until a single node remains (fuel-structural; the
level count is bounded by the leaf count). -/
def specMerkleGo : Nat → List Bytes → Bytes
  | 0, l => l.headD []
  | fuel + 1, l =>
      let nxt := specLevelStep l
      if nxt.length = 1 then nxt.headD [] else specMerkleGo fuel nxt

/-- The transactions root as the spec words it (§4.2): a binary tree built
level by level, an empty-string leaf appended at each level whose node
count is odd, pairs concatenated and hashed, repeated until one node
remains; `SHA-256("")` for an empty list.  This is the spec-side
definition to be compared with `transRoot`, the one from the source. -/
def specMerkleRoot (leaves : List Bytes) : Bytes :=
  match leaves with
  | [] => sha256 []
  | _ :: _ => specMerkleGo leaves.length leaves

/-- The spec-side transactions root of a block (cf.
`Block.transactions_digest`). -/
def Block.specTransRoot (b : Block) : Bytes :=
  specMerkleRoot (b.transactions.map (fun t => sha256 (txJson t)))

/-- Whether some signature occurs in two distinct positions of the list
(the block "contains two distinct transactions with the same
signature"). -/
def hasDupSignature : List Transaction → Bool
  | [] => false
  | t :: ts => ts.any (fun u => u.signature == t.signature) || hasDupSignature ts

/-- The block digest recomputed at a given nonce:
`sha256(author ‖ previous ‖ transactions_digest ‖ str(nonce))`, where
`author` is the UTF-8 address, `previous` the base64 line (with trailing
newline) of the raw parent digest, and the nonce is rendered in decimal. -/
def Block.headerDigest (b : Block) (nonce : Nat) : Bytes :=
  sha256 (ascii b.author ++ b.previousB64 ++ b.transactions_digest ++ decStr nonce)

/-- Python `digest[:difficulty]` where `difficulty` may be any integer:
non-negative slices take a prefix, negative ones drop from the end. -/
def pyslice (l : Bytes) (d : Int) : Bytes :=
  if 0 ≤ d then l.take d.toNat else l.take (l.length - d.natAbs)

/-- `bytearray([0 for _ in range(difficulty)])`: empty for `difficulty ≤ 0`. -/
def zerosPy (d : Int) : Bytes := List.replicate d.toNat 0

/-- `Block.valid(difficulty)`: false without a nonce; otherwise recompute
the digest from the current fields and require both equality with the
stored digest and the leading-zero prefix. -/
def Block.valid (b : Block) (d : Int) : Bool :=
  match b.nonce with
  | none => false
  | some nc =>
      let calcd := b.headerDigest nc
      decide (b.digest = some calcd) && decide (pyslice calcd d = zerosPy d)

/-- The `proof_of_work` search loop: test the digest at the current nonce;
on failure increment, giving up once the nonce passes `endN`.  Called with
fuel `endN - nonce` this is exactly the Python loop (at fuel 0 the
increment test `nonce + 1 > endN` is already decided). -/
def powSearch (hash : Nat → Bytes) (good : Bytes → Bool) (endN : Nat) :
    Nat → Nat → Option Nat
  | 0, nonce => if good (hash nonce) then some nonce else none
  | fuel + 1, nonce =>
      if good (hash nonce) then some nonce
      else if endN < nonce + 1 then none
      else powSearch hash good endN fuel (nonce + 1)

/-- `Block.proof_of_work(difficulty, start_nonce, end_nonce)`: immediately
true when a nonce is already present; otherwise search the range and on
success store the found nonce and its digest.  The returned pair is the
(possibly updated) block and the Python return value. -/
def Block.proof_of_work (b : Block) (d : Int) (startN endN : Nat) :
    Block × Bool :=
  match b.nonce with
  | some _ => (b, true)
  | none =>
      match powSearch b.headerDigest
          (fun dg => decide (pyslice dg d = zerosPy d)) endN
          (endN - startN) startN with
      | some nc =>
          ({ b with nonce := some nc, digest := some (b.headerDigest nc) }, true)
      | none => (b, false)

/-! ### The node's block admission (`node.py`, `Node.new_block`) -/

/-- The difficulty computed by `Node.new_block`, exactly as written:
`int(52 - (50 / 1 + number_of_blocks // 100000))`.  Python 2 division of
the integers `50 / 1` is `50`, so this is `2 - n // 100000` (an `Int`,
since it goes negative for large chains). -/
def networkDifficulty (n : Nat) : Int :=
  52 - (((50 : Int) / 1) + ((n / 100000 : Nat) : Int))

/-- The difficulty schedule as the spec states it:
`⌊52 − 50 / (1 + ⌊n / 100 000⌋)⌋` (real division inside the floor). -/
def specDifficulty (n : Nat) : Int :=
  Int.floor ((52 : ℚ) - 50 / (1 + ((n / 100000 : Nat) : ℚ)))

/-- Modelled from the spec: `Store.amount_owned(address)` (spec §6), whose
code (the external `QuantCoin` store) is missing from the sources: the sum
over accepted blocks of credits (amounts received) minus debits
(`amount_spent` of transactions sent) for this address. -/
def amount_owned (chain : List Block) (addr : String) : Amt :=
  Amt.sub
    (Amt.sumL (chain.map (fun b =>
      Amt.sumL (b.txs.map (fun t =>
        Amt.sumL ((t.to_wallets.filter (fun e => e.1 == addr)).map
          (fun e => e.2.1)))))))
    (Amt.sumL (chain.map (fun b =>
      Amt.sumL ((b.txs.filter (fun t => t.from_wallet == some addr)).map
        Transaction.amount_spent))))

/-- The checks `Node.new_block` runs on a non-coinbase transaction with
wallet `w`: spendable balance, no self-pay, address derivation
`"QC" + sha1(public_key).hexdigest() == from_wallet`, and ECDSA signature
verification over the canonical signing body.  (The source iterates
`to_wallets` entries unpacking an address as the first component; a failed
check raises and the block is not stored.) -/
def regularTxOk (chain : List Block) (t : Transaction) (w : String) : Bool :=
  Amt.leB t.amount_spent (amount_owned chain w)
  && t.to_wallets.all (fun e => !(e.1 == w))
  && (ascii "QC" ++ hexBytes (sha1 t.public_key) == ascii w)
  && ecdsaBytesVerify t.public_key t.signature (prepareForSignature t)

/-- The transaction loop of `Node.new_block`: the flag records whether a
coin-creation (coinbase) transaction was already seen; a coinbase must be
the only one and must spend at most `bound`; other transactions must pass
`regularTxOk`. -/
def txLoop (chain : List Block) (bound : Amt) :
    List Transaction → Bool → Bool
  | [], _ => true
  | t :: ts, flag =>
      match t.from_wallet with
      | some w => regularTxOk chain t w && txLoop chain bound ts flag
      | none =>
          (!flag) && Amt.leB t.amount_spent bound && txLoop chain bound ts true

/-- The coinbase bound of `Node.new_block`, exactly as written:
`100 / (1 + (number_of_blocks // 100000))` — Python 2 integer (floor)
division, compared against the (numeric) coinbase `amount_spent`. -/
def coinbaseBound (n : Nat) : Amt := ⟨((100 / (1 + n / 100000) : Nat) : Int), 1⟩

/-- The parent-link check of `Node.new_block`.  The source line is
`assert block.previous() == known_blocks[-1].digest() if number_of_blocks > 0
else binascii.b2a_base64('genesis_block')`: by Python operator precedence
the conditional expression is the *assert operand*, so with an empty chain
the asserted value is the non-empty (truthy) string
`b2a_base64('genesis_block')` and the check passes for every block. -/
def parentOk (chain : List Block) (b : Block) : Bool :=
  match chain.getLast? with
  | some tip => b.previousB64 == tip.digestB64
  | none => true

/-- All checks of `Node.new_block`, in source order: parent link, PoW
validity at the network difficulty, then the per-transaction loop.  Any
failure (a failed `assert` or an exception escaping a library call) means
the block is not stored. -/
def newBlockAccepts (chain : List Block) (b : Block) : Bool :=
  parentOk chain b
  && b.valid (networkDifficulty chain.length)
  && txLoop chain (coinbaseBound chain.length) b.transactions false

/-- `Node.new_block` as a transition on the stored chain (the input block
already parsed from its JSON): on success the block is appended via
`store_block` and the result flag is true; otherwise the store is left as
it was. -/
def new_block (chain : List Block) (b : Block) : List Block × Bool :=
  if newBlockAccepts chain b then (chain ++ [b], true) else (chain, false)

/-! ### Gossip fan-out (`node.py`, `Network._send_cmd`) -/

/-- A peer: an address and a port. -/
abbrev Peer := String × Nat

/-- The contract of Python's `random.sample(population, k)`: a `ValueError`
when the requested sample is larger than the population, otherwise `k`
elements of it (which `k` elements is irrelevant to every claim; the first
`k` stand in for the random choice). -/
def randomSample (k : Nat) (l : List Peer) : Except String (List Peer) :=
  if l.length < k then Except.error "ValueError" else Except.ok (l.take k)

/-- `Network._send_cmd`: with no known peers (`all_nodes()` returning
`None`) it logs and sends nothing; otherwise it draws
`random.sample(nodes, 100)` and attempts a connection to every sampled
peer, swallowing per-peer connection failures (`fails` marks peers whose
connect raises) and sending to the rest.  The result is the pair
(peers attempted, peers actually sent to), or the uncaught exception. -/
def send_cmd (nodes : Option (List Peer)) (fails : Peer → Bool) :
    Except String (Nat × Nat) :=
  match nodes with
  | none => Except.ok (0, 0)
  | some l =>
      match randomSample 100 l with
      | Except.error e => Except.error e
      | Except.ok sample =>
          Except.ok (sample.length, (sample.filter (fun p => !fails p)).length)

/-! ### Concrete instances used to evaluate the claims

The nonces and digests below were found by running the embedded functions
themselves (the proofs below re-verify them inside the kernel); the
key pair is a genuine secp256k1 key with a genuine ECDSA signature over
the canonical signing body. -/

/-- A mined block submitted to an empty chain whose `previous` is *not*
the genesis sentinel: no transactions, nonce found at difficulty 2. -/
def blockC1 : Block :=
  ⟨"QCminer", [], ascii "not_the_genesis", some 2512,
   some (beBytes 32 0x0000ca254f9b0f9caad84cc4793cecd91939dcbf5f4bc0aee121ca826f70d684)⟩

/-- Five distinct transactions (empty outputs, distinct wallets) for the
transactions-root comparison. -/
def txsC3 : List Transaction :=
  [⟨some "QCaaa", [], [1], [17]⟩,
   ⟨some "QCbbb", [], [2], [18]⟩,
   ⟨some "QCccc", [], [3], [19]⟩,
   ⟨some "QCddd", [], [4], [20]⟩,
   ⟨some "QCeee", [], [5], [21]⟩]

/-- An (unmined) block holding the five transactions above. -/
def blockC3 : Block := ⟨"QCauthor", txsC3, ascii "x", none, none⟩

/-- A block that fails admission (no nonce, so `valid` is false). -/
def blockBad : Block := ⟨"a", [], ascii "x", none, none⟩

/-- A minimal unmined block for exercising `proof_of_work`. -/
def blockC5 : Block := ⟨"a", [], ascii "p", none, none⟩

/-- A coinbase reaching for 101 coins — above the cap on a fresh chain. -/
def txCb101 : Transaction := ⟨none, [("QCy", ⟨101, 1⟩, ⟨0, 1⟩)], [], []⟩

/-- A block holding only the over-limit coinbase. -/
def blockC6 : Block := ⟨"QCauthor", [txCb101], ascii "x", none, none⟩

/-- A non-coinbase transaction (for the ordering of `transactions()`). -/
def txReg : Transaction := ⟨some "QCzz", [], [1], [2]⟩

/-- A coinbase transaction (for the ordering of `transactions()`). -/
def txCb : Transaction := ⟨none, [], [3], [4]⟩

/-- A block whose stored transaction list has the coinbase *last*. -/
def blockC8 : Block := ⟨"QCauthor", [txReg, txCb], ascii "x", none, none⟩

/-- The wallet address derived from `pkC9`:
`"QC" + sha1(public_key).hexdigest()`. -/
def addrC9 : String := "QCe574a45439c6a2ac6ea28aa10c9c34b591f15975"

/-- A genuine secp256k1 public key (64-byte `x ‖ y`). -/
def pkC9 : Bytes :=
  beBytes 32 0x8f9c14b84e6ee89efcaeb0129be1e5557002d1603c7f9688792803c48888364b ++
  beBytes 32 0x92b2837a852428dec3aa436e65a7c19d5cacafe4eb47b5298ce48427c988d66c

/-- A genuine ECDSA signature (64-byte `r ‖ s`) by the key holder over the
canonical signing body of `txC9`. -/
def sigC9 : Bytes :=
  beBytes 32 0x19f019d1fe0e847ba5006157aafeff76c25237f43952a7946d3ee1ecd117718f ++
  beBytes 32 0x4db1e3f73cdd569af9f7d8e466a831fc055f93b7a81fdded4e5c7dd53c4891e1

/-- A fully valid transaction spending nothing (empty outputs). -/
def txC9 : Transaction := ⟨some addrC9, [], sigC9, pkC9⟩

/-- A coinbase transaction carrying the *same* signature bytes as `txC9`
(coinbase signatures are never verified). -/
def cbC9 : Transaction := ⟨none, [], sigC9, pkC9⟩

/-- A mined block containing two distinct transactions — `txC9` and the
coinbase `cbC9` — with the same signature, the genesis sentinel as parent,
nonce found at difficulty 2. -/
def blockC9 : Block :=
  ⟨"QCminer", [txC9, cbC9], ascii "genesis_block", some 39090,
   some (beBytes 32 0x00005436fd41ffd04301c71f3f8826a0970aa52ca051d41f843d13b90285fb34)⟩

/-! ## Helper lemmas -/

/-- The comparison handed to `sorted` never reports "less than". -/
theorem blockCmp_nonneg (t1 t2 : Transaction) : ¬ blockCmp t1 t2 < 0 := by
  unfold blockCmp
  cases pyLtFw t1.from_wallet t2.from_wallet <;> decide

/-- With a comparison that never reports "less than", insertion degenerates
to appending at the end. -/
theorem insertCmp_blockCmp_append (x : Transaction) :
    ∀ acc : List Transaction, insertCmp blockCmp x acc = acc ++ [x] := by
  intro acc
  induction acc with
  | nil => rfl
  | cons y ys ih =>
      unfold insertCmp
      rw [if_neg (blockCmp_nonneg x y), ih]
      rfl

/-- `sorted` with the block's comparison is the identity: the transaction
list comes back in its original order. -/
theorem sortedCmp_blockCmp_id (l : List Transaction) :
    sortedCmp blockCmp l = l := by
  have key : ∀ (l acc : List Transaction),
      List.foldl (fun a x => insertCmp blockCmp x a) acc l = acc ++ l := by
    intro l
    induction l with
    | nil => intro acc; simp
    | cons x xs ih =>
        intro acc
        rw [List.foldl_cons, insertCmp_blockCmp_append, ih]
        simp
  simpa using key l []

/-- The queue reduction of the source and the level-by-level tree of the
spec coincide on at most four leaves. -/
theorem transRoot_agree_small (leaves : List Bytes) (h : leaves.length ≤ 4) :
    transRoot leaves = specMerkleRoot leaves := by
  obtain _ | ⟨a, _ | ⟨b, _ | ⟨c, _ | ⟨d, _ | ⟨e, t⟩⟩⟩⟩⟩ := leaves
  · rfl
  · simp [transRoot, specMerkleRoot, specMerkleGo, specLevelStep, pairHashLevel,
      queueRun]
  · simp [transRoot, specMerkleRoot, specMerkleGo, specLevelStep, pairHashLevel,
      queueRun]
  · simp [transRoot, specMerkleRoot, specMerkleGo, specLevelStep, pairHashLevel,
      queueRun]
  · simp [transRoot, specMerkleRoot, specMerkleGo, specLevelStep, pairHashLevel,
      queueRun]
  · simp only [List.length_cons] at h
    omega

/-- A successful `powSearch` returns a nonce whose digest satisfies the
difficulty test. -/
theorem powSearch_good (hash : Nat → Bytes) (good : Bytes → Bool)
    (endN : Nat) :
    ∀ (fuel nonce nc : Nat), powSearch hash good endN fuel nonce = some nc →
      good (hash nc) = true := by
  intro fuel
  induction fuel with
  | zero =>
      intro nonce nc h
      by_cases hg : good (hash nonce)
      · unfold powSearch at h
        rw [if_pos hg] at h
        injection h with h'
        rw [← h']
        exact hg
      · unfold powSearch at h
        rw [if_neg hg] at h
        cases h
  | succ n ih =>
      intro nonce nc h
      by_cases hg : good (hash nonce)
      · unfold powSearch at h
        rw [if_pos hg] at h
        injection h with h'
        rw [← h']
        exact hg
      · by_cases hlt : endN < nonce + 1
        · unfold powSearch at h
          rw [if_neg hg, if_pos hlt] at h
          cases h
        · unfold powSearch at h
          rw [if_neg hg, if_neg hlt] at h
          exact ih _ _ h

/-- If the transaction loop succeeds, every coinbase in the list satisfies
the bound test. -/
theorem txLoop_cb_le (chain : List Block) (bound : Amt) :
    ∀ (l : List Transaction) (flag : Bool), txLoop chain bound l flag = true →
      ∀ t ∈ l, t.from_wallet = none → Amt.leB t.amount_spent bound = true := by
  intro l
  induction l with
  | nil => intro flag _ t hmem; cases hmem
  | cons t' ts ih =>
      intro flag hT t hmem hcb
      cases hmem with
      | head =>
          unfold txLoop at hT
          rw [hcb] at hT
          rw [Bool.and_eq_true, Bool.and_eq_true] at hT
          exact hT.1.2
      | tail _ hmem' =>
          unfold txLoop at hT
          cases hfw : t'.from_wallet with
          | some w =>
              rw [hfw, Bool.and_eq_true] at hT
              exact ih _ hT.2 t hmem' hcb
          | none =>
              rw [hfw, Bool.and_eq_true, Bool.and_eq_true] at hT
              exact ih _ hT.2 t hmem' hcb

/-- A successful `leB` against an integer bound gives the rational
inequality (for any denominator, zero included). -/
theorem amt_leB_natBound {a : Amt} {m : Nat}
    (h : Amt.leB a ⟨(m : Int), 1⟩ = true) : a.toRat ≤ (m : ℚ) := by
  unfold Amt.leB at h
  rw [decide_eq_true_eq] at h
  unfold Amt.toRat
  rcases Nat.eq_zero_or_pos a.den with hd | hd
  · rw [hd]
    simp
  · have hdq : (0 : ℚ) < (a.den : ℚ) := by exact_mod_cast hd
    rw [div_le_iff₀ hdq]
    have h' : (a.num : ℚ) ≤ (m : ℚ) * (a.den : ℚ) := by
      have h2 : a.num ≤ (m : Int) * (a.den : Int) := by simpa using h
      exact_mod_cast h2
    exact h'

/-! ## Sanity anchors for the executable primitives

Known test vectors and one end-to-end signature, evaluated inside the
kernel, pin the embedded primitives to their real counterparts. -/

example : sha256 [] =
    beBytes 32 0xe3b0c44298fc1c149afbf4c8996fb92427ae41e4649b934ca495991b7852b855 := by
  decide

example : sha256 (ascii "abc") =
    beBytes 32 0xba7816bf8f01cfea414140de5dae2223b00361a396177a9cb410ff61f20015ad := by
  decide

example : sha1 (ascii "abc") =
    beBytes 20 0xa9993e364706816aba3e25717850c26c9cd0d89d := by decide

example : b2aBase64 (ascii "genesis_block") = ascii "Z2VuZXNpc19ibG9jaw==\n" := by
  decide

example : decStr 0 = ascii "0" := by decide

example : decStr 90210 = ascii "90210" := by decide

example : ecdsaBytesVerify pkC9 sigC9 (prepareForSignature txC9) = true := by
  decide

/-! ## The claims -/

/-- C1.  The claim says admission requires `previous` to equal the genesis
sentinel on an empty chain.  In the source the conditional expression is
the whole assert operand, so on an empty chain the asserted value is the
truthy string `b2a_base64('genesis_block')` and *no* parent check happens:
this block, whose `previous` is not the sentinel, is accepted (and
stored). -/
theorem c1_empty_chain_parent_unchecked :
    new_block [] blockC1 = ([blockC1], true) ∧
      blockC1.previousB64 ≠ b2aBase64 (ascii "genesis_block") := by
  constructor
  · decide
  · decide

/-- C2.  The spec difficulty `⌊52 − 50 / (1 + ⌊n / 100 000⌋)⌋` and the
source expression `int(52 - (50 / 1 + n // 100000))` agree at `n = 0`
(both 2) but not at `n = 100000`: the source computes 1 where the claim
says 27 — the parenthesis slipped, dividing 50 by 1 instead of by
`1 + n // 100000`. -/
theorem c2_difficulty_formula_mismatch :
    networkDifficulty 0 = 2 ∧ specDifficulty 0 = 2 ∧
      networkDifficulty 100000 = 1 ∧ specDifficulty 100000 = 27 := by
  refine ⟨by decide, ?_, by decide, ?_⟩
  · unfold specDifficulty
    norm_num
  · unfold specDifficulty
    norm_num

/-- C3 (counterexample).  At five transactions the source's queue reduction
and the spec's level-by-level tree (empty-string leaf appended at each odd
level) produce different roots. -/
theorem c3_counterexample :
    Block.transactions_digest blockC3 ≠ Block.specTransRoot blockC3 := by
  decide

/-- C3 (amended).  `transactions_root` hashes the sorted transactions,
appends a single empty-string leaf when the leaf count is odd, and then
reduces the queue pairwise from the front, appending each hash at the back;
this agrees with the spec's level-by-level tree for blocks of at most four
transactions (`SHA-256("")` for an empty list included), and differs from
it at five. -/
theorem c3_small_trees_agree (b : Block) (h : b.transactions.length ≤ 4) :
    b.transactions_digest = b.specTransRoot :=
  transRoot_agree_small _ (by simpa using h)

/-- C3 (witness): a concrete two-transaction block on which the two tree
constructions coincide. -/
theorem c3_small_trees_agree_witness :
    (Block.transactions blockC8).length ≤ 4 ∧
      Block.transactions_digest blockC8 = Block.specTransRoot blockC8 :=
  ⟨by decide, c3_small_trees_agree blockC8 (by decide)⟩

/-- C4.  When admission rejects, the store is unchanged: `store_block` runs
only after every check has passed. -/
theorem c4_reject_leaves_store_unchanged (chain : List Block) (b : Block)
    (h : (new_block chain b).2 = false) : (new_block chain b).1 = chain := by
  unfold new_block at h ⊢
  by_cases hA : newBlockAccepts chain b
  · rw [if_pos hA] at h
    cases h
  · rw [if_neg hA]

/-- C4 (witness): a concretely rejected block (no nonce) leaves the empty
store empty. -/
theorem c4_reject_witness :
    (new_block [] blockBad).2 = false ∧ (new_block [] blockBad).1 = [] :=
  ⟨by decide, c4_reject_leaves_store_unchanged [] blockBad (by decide)⟩

/-- C5.  If `proof_of_work` succeeds on a block without a nonce, the
returned block stores the found nonce and its digest, that digest passes
the difficulty prefix test, and `valid` holds afterwards. -/
theorem c5_pow_soundness (b : Block) (d : Int) (sN eN : Nat)
    (h1 : b.nonce = none) (h2 : (b.proof_of_work d sN eN).2 = true) :
    ∃ nc dg, (b.proof_of_work d sN eN).1.nonce = some nc ∧
      (b.proof_of_work d sN eN).1.digest = some dg ∧
      pyslice dg d = zerosPy d ∧
      Block.valid (b.proof_of_work d sN eN).1 d = true := by
  obtain ⟨a, txs, prev, non, dg⟩ := b
  cases non with
  | some _ => cases h1
  | none =>
      simp only [Block.proof_of_work] at h2 ⊢
      cases hps : powSearch (Block.headerDigest ⟨a, txs, prev, none, dg⟩)
          (fun dgst => decide (pyslice dgst d = zerosPy d)) eN (eN - sN) sN with
      | none => simp [hps] at h2
      | some nc =>
          have hg := powSearch_good _ _ _ _ _ _ hps
          refine ⟨nc, Block.headerDigest ⟨a, txs, prev, none, dg⟩ nc, rfl, rfl,
            of_decide_eq_true hg, ?_⟩
          show Block.valid ⟨a, txs, prev, some nc,
            some (Block.headerDigest ⟨a, txs, prev, none, dg⟩ nc)⟩ d = true
          simp only [Block.valid]
          rw [Bool.and_eq_true]
          exact ⟨decide_eq_true rfl, hg⟩

/-- C5 (witness): at difficulty 0 the search succeeds immediately on a
concrete block and all conclusions evaluate. -/
theorem c5_pow_soundness_witness :
    blockC5.nonce = none ∧ (blockC5.proof_of_work 0 0 0).2 = true ∧
      ∃ nc dg, (blockC5.proof_of_work 0 0 0).1.nonce = some nc ∧
        (blockC5.proof_of_work 0 0 0).1.digest = some dg ∧
        pyslice dg 0 = zerosPy 0 ∧
        Block.valid (blockC5.proof_of_work 0 0 0).1 0 = true :=
  ⟨rfl, by decide, c5_pow_soundness blockC5 0 0 0 rfl (by decide)⟩

/-- C6.  A coinbase spending more than `100 / (1 + ⌊n / 100 000⌋)` (exact
division) is always rejected: the source compares against the
floor-divided bound, which is at most the exact one. -/
theorem c6_coinbase_cap (chain : List Block) (b : Block) (t : Transaction)
    (hmem : t ∈ b.transactions) (hcb : t.from_wallet = none)
    (hgt : (100 : ℚ) / (1 + ((chain.length / 100000 : Nat) : ℚ)) <
      t.amount_spent.toRat) :
    (new_block chain b).2 = false := by
  by_contra hne
  have hacc : newBlockAccepts chain b = true := by
    unfold new_block at hne
    by_cases hA : newBlockAccepts chain b
    · exact hA
    · rw [if_neg hA] at hne
      exact absurd rfl hne
  unfold newBlockAccepts at hacc
  rw [Bool.and_eq_true, Bool.and_eq_true] at hacc
  have hle := txLoop_cb_le chain (coinbaseBound chain.length) _ _ hacc.2 t hmem hcb
  have h1 : t.amount_spent.toRat ≤
      ((100 / (1 + chain.length / 100000) : Nat) : ℚ) :=
    amt_leB_natBound hle
  have h2 : ((100 / (1 + chain.length / 100000) : Nat) : ℚ) ≤
      (100 : ℚ) / (1 + ((chain.length / 100000 : Nat) : ℚ)) := by
    have h3 := Nat.cast_div_le (α := ℚ) (m := 100) (n := 1 + chain.length / 100000)
    have h4 : ((1 + chain.length / 100000 : Nat) : ℚ) =
        1 + ((chain.length / 100000 : Nat) : ℚ) := by push_cast; ring
    rw [h4] at h3
    simpa using h3
  linarith

/-- C6 (witness): a 101-coin coinbase on an empty chain (cap 100) is
rejected. -/
theorem c6_coinbase_cap_witness :
    txCb101 ∈ Block.transactions blockC6 ∧ txCb101.from_wallet = none ∧
      (100 : ℚ) / (1 + ((([] : List Block).length / 100000 : Nat) : ℚ)) <
        txCb101.amount_spent.toRat ∧
      (new_block [] blockC6).2 = false := by
  have hgt : (100 : ℚ) / (1 + ((([] : List Block).length / 100000 : Nat) : ℚ)) <
      txCb101.amount_spent.toRat := by
    show (100 : ℚ) / (1 + ((0 / 100000 : Nat) : ℚ)) < Amt.toRat ⟨101, 1⟩
    unfold Amt.toRat
    norm_num
  exact ⟨by decide, rfl, hgt, c6_coinbase_cap [] blockC6 txCb101 (by decide) rfl hgt⟩

/-- C7.  The claim says `forward` completes and attempts `min(K, 100)`
peers.  With a single known peer the source raises `ValueError` from
`random.sample(nodes, 100)` (sample larger than population), so the
fan-out does not complete and attempts nobody. -/
theorem c7_sample_raises_on_few_peers :
    send_cmd (some [("10.0.0.1", 65345)]) (fun _ => false) =
      Except.error "ValueError" := rfl

/-- C8.  The claim says `transactions()` sorts canonically with the
coinbase first.  The Python 2 comparison returns a boolean (never a
negative integer), so the sort is the identity: this block comes back with
its non-coinbase transaction first and its coinbase last. -/
theorem c8_transactions_not_sorted :
    Block.transactions blockC8 = [txReg, txCb] ∧
      txReg.from_wallet ≠ none ∧ txCb.from_wallet = none := by
  refine ⟨?_, by decide, rfl⟩
  decide

/-- C9 (counterexample).  Admission does not reject duplicate signatures: a
block carrying two distinct transactions with the same signature (a signed
transfer and a coinbase reusing its signature bytes) passes every check on
an empty chain and is accepted. -/
theorem c9_counterexample :
    ¬ (∀ (chain : List Block) (b : Block) (t1 t2 : Transaction),
        t1 ∈ b.transactions → t2 ∈ b.transactions → t1 ≠ t2 →
        t1.signature = t2.signature → (new_block chain b).2 = false) := by
  intro hclaim
  exact absurd
    (hclaim [] blockC9 txC9 cbC9 (by decide) (by decide) (by decide) rfl)
    (by decide)

/-- C9 (amended).  `Node.new_block` checks neither signature uniqueness nor
transaction ordering: a block containing two distinct transactions with the
same signature can be accepted when all other checks pass. -/
theorem c9_no_uniqueness_check :
    (new_block [] blockC9).2 = true ∧ txC9 ∈ blockC9.transactions ∧
      cbC9 ∈ blockC9.transactions ∧ txC9 ≠ cbC9 ∧
      txC9.signature = cbC9.signature ∧
      hasDupSignature blockC9.transactions = true := by
  exact ⟨by decide, by decide, by decide, by decide, rfl, by decide⟩

/-- C10.  A block without a nonce never validates, at any difficulty. -/
theorem c10_unmined_never_valid (a : String) (ts : List Transaction)
    (p : Bytes) (dg : Option Bytes) (d : Int) :
    Block.valid ⟨a, ts, p, none, dg⟩ d = false := rfl

end QuantCoin
